import Mathlib

/-!
# Verification of chatlib's dual-store embedding engine (`chatlib/vectors.py`)

Shallow embedding of the vector-storage module: `clean_text`,
`Embedding.search` and `Embedding.store`.  The two external stores
(Pinecone `VectorIndex`, MongoDB `DocumentStore`) are modelled as explicit
state threaded through the operations, together with a trace of the backend
calls each operation issues.  Scores are modelled as rationals (the code
only ever compares them), documents as association lists of string fields
(MongoDB documents have unique field keys; `find_one(q)` matches a document
containing every field/value pair of `q`), and identifiers as strings
(MongoDB ObjectIds, always stringified before reaching Pinecone).
-/

namespace Chatlib

/-- A MongoDB document: a list of field/value pairs (keys unique in real
documents).  `"_id"` holds the document identifier. -/
abbrev Doc := List (String × String)

/-- `mongo.embeddings` registry record, built at `vectors.py:202-206`:
`{"vector": ..., "table": ..., "obj_id": ...}`.  `obj_id` is `Option`al
because `store` may be called with neither `id` nor `info`. -/
structure EmbRecord where
  vector : List ℚ
  table : String
  obj_id : Option String
deriving DecidableEq, Repr

/-- One match returned by `index.query`: an id and a similarity score. -/
structure VMatch where
  id : String
  score : ℚ
deriving DecidableEq, Repr

/-- Joint state of the two backends.
`vindex`: Pinecone namespaces, each holding the set of vector ids present.
`embeddings`: the `mongo.embeddings` registry, id ↦ record.
`tables`: the remaining MongoDB collections, name ↦ document list
(a collection absent from the list reads as empty, as in MongoDB).
`counter`: source of fresh ObjectIds for inserts. -/
structure World where
  vindex : List (String × List String)
  embeddings : List (String × EmbRecord)
  tables : List (String × List Doc)
  counter : Nat
deriving DecidableEq, Repr

/-- A backend call, as recorded in an operation's trace. -/
inductive Call where
  | indexQuery (ns : String) (vector : List ℚ) (filter : Option Doc) (k : Nat)
  | indexDelete (ns : String) (ids : List String)
  | indexUpsert (ns : String) (id : String) (vector : List ℚ) (metadata : Doc)
  | registryFindOne (id : String)
  | registryInsert (id : String) (rec : EmbRecord)
  | docFindOne (table : String) (query : Doc)
  | docFindOneById (table : String) (obj_id : Option String)
  | docInsertOne (table : String) (doc : Doc)
deriving DecidableEq, Repr

/-- Does `d` match the MongoDB query document `q` (every field/value pair of
`q` present in `d`)? -/
def docMatches (q : Doc) (d : Doc) : Bool :=
  q.all (fun kv => d.any (fun kv2 => decide (kv2 = kv)))

/-- First value of field `k` in document `d`. -/
def getField (d : Doc) (k : String) : Option String :=
  (d.find? (fun kv => decide (kv.1 = k))).map (·.2)

/-- Update an association list at key `k` (append if absent). -/
def updateAssoc {α : Type} (l : List (String × α)) (k : String) (v : α) :
    List (String × α) :=
  match l with
  | [] => [(k, v)]
  | (k2, v2) :: rest =>
    if k2 = k then (k, v) :: rest else (k2, v2) :: updateAssoc rest k v

/-- Documents of collection `t` (empty when the collection does not exist). -/
def tableDocs (w : World) (t : String) : List Doc :=
  ((w.tables.find? (fun p => decide (p.1 = t))).map (·.2)).getD []

/-- `mongo[t].find_one(q)`. -/
def findOneDoc (w : World) (t : String) (q : Doc) : Option Doc :=
  (tableDocs w t).find? (docMatches q)

/-- `mongo[t].find_one({"_id": oid})`; with `obj_id = None` the source
builds a fresh random ObjectId (`bson.ObjectId(None)`), which matches no
stored document. -/
def findOneDocById (w : World) (t : String) (oid : Option String) : Option Doc :=
  match oid with
  | none => none
  | some i => findOneDoc w t [("_id", i)]

/-- `mongo.embeddings.find_one({"_id": ObjectId(rid)})`. -/
def findRecord (w : World) (rid : String) : Option EmbRecord :=
  ((w.embeddings.find? (fun p => decide (p.1 = rid))).map (·.2))

/-- Ids present in Pinecone namespace `ns` of an index state. -/
def nsIdsL (vx : List (String × List String)) (ns : String) : List String :=
  ((vx.find? (fun p => decide (p.1 = ns))).map (·.2)).getD []

/-- Ids present in Pinecone namespace `ns`. -/
def nsIds (w : World) (ns : String) : List String := nsIdsL w.vindex ns

/-- `index.delete(ids, namespace=ns)` on an index state. -/
def vindexDeleteL (vx : List (String × List String)) (ns : String)
    (ids : List String) : List (String × List String) :=
  vx.map (fun p =>
    if p.1 = ns then (p.1, p.2.filter (fun i => !(ids.contains i))) else p)

/-- `index.delete(ids, namespace=ns)`. -/
def vindexDelete (w : World) (ns : String) (ids : List String) : World :=
  { w with vindex := vindexDeleteL w.vindex ns ids }

/-- `index.upsert(namespace=ns, vectors=[{id, values, metadata}])`: the id
becomes present in the namespace (values replaced if already there). -/
def vindexUpsert (w : World) (ns : String) (i : String) : World :=
  let ids := nsIdsL w.vindex ns
  let ids2 := if ids.contains i then ids else ids ++ [i]
  { w with vindex := updateAssoc w.vindex ns ids2 }

/-- `mongo[t].insert_one(d)` at the collection level (MongoDB `$natural`
order: appended at the end). -/
def insertDocL (w : World) (t : String) (d : Doc) : World :=
  { w with tables := updateAssoc w.tables t (tableDocs w t ++ [d]) }

/-- Fresh ObjectId from the world's counter. -/
def genId (n : Nat) : String := "oid" ++ toString n

/-! ## `Embedding.search` (`vectors.py:119-170`)

`index.query` is an opaque ANN service: the ranked match list it returns is
taken as an input (`matches`); the Pinecone contract guarantees it has at
most `k` entries, sorted best first, with distinct ids.  `deleteOk` models
whether the `index.delete` network call at line 168 succeeds; the source
wraps it in no `try`, so a failure propagates out of `search`. -/

/-- `search` raised as a Python exception. -/
inductive SearchErr where
  | invalidQuery
  | backendFailure
deriving DecidableEq, Repr

/-- Outcome of a `search` call: the returned value (or exception), the
backend state after the call, and the trace of backend calls issued. -/
structure SearchOut where
  result : Except SearchErr (List Doc)
  world : World
  trace : List Call
deriving Repr

/-- Lines 146-150: pair each match above the cutoff with its registry
lookup `mongo.embeddings.find_one({"_id": ObjectId(r.id)})`. -/
def stage1 (w : World) (cutoff : ℚ) (ms : List VMatch) :
    List (String × Option EmbRecord) :=
  (ms.filter (fun r => decide (cutoff < r.score))).map
    (fun r => (r.id, findRecord w r.id))

/-- Line 154: keep the pairs whose registry lookup succeeded. -/
def keptPairs (w : World) (cutoff : ℚ) (ms : List VMatch) :
    List (String × EmbRecord) :=
  (stage1 w cutoff ms).filterMap
    (fun x => x.2.map (fun rec => (x.1, rec)))

/-- Lines 157-160: pair each surviving id with the owning-document lookup
`mongo[x.table].find_one({"_id": ObjectId(x.obj_id)})`. -/
def stage2 (w : World) (cutoff : ℚ) (ms : List VMatch) :
    List (String × Option Doc) :=
  (keptPairs w cutoff ms).map
    (fun p => (p.1, findOneDocById w p.2.table p.2.obj_id))

/-- Lines 153 and 162: ids lost at the registry stage, then ids lost at the
owning-document stage. -/
def lostIds (w : World) (cutoff : ℚ) (ms : List VMatch) : List String :=
  ((stage1 w cutoff ms).filter (fun x => x.2.isNone)).map (·.1) ++
    ((stage2 w cutoff ms).filter (fun x => x.2.isNone)).map (·.1)

/-- Line 163: the documents `search` returns. -/
def searchDocs (w : World) (cutoff : ℚ) (ms : List VMatch) : List Doc :=
  (stage2 w cutoff ms).filterMap (·.2)

/-- Ids that contribute a document to the result (first components of the
pairs surviving line 163). -/
def resolvedIds (w : World) (cutoff : ℚ) (ms : List VMatch) : List String :=
  ((stage2 w cutoff ms).filter (fun x => x.2.isSome)).map (·.1)

/-- The non-query backend calls `search` issues while resolving matches. -/
def searchLookupTrace (w : World) (cutoff : ℚ) (ms : List VMatch) :
    List Call :=
  (stage1 w cutoff ms).map (fun x => Call.registryFindOne x.1) ++
    (keptPairs w cutoff ms).map
      (fun p => Call.docFindOneById p.2.table p.2.obj_id)

/-- `Embedding.search(pinecone_namespace, k, filter, cutoff)`
(`vectors.py:119-170`).  `vec` is `self.vector` (`None` or a list);
`matches` is what `index.query` returned. -/
def search (w : World) (vec : Option (List ℚ)) (ns : String) (k : Nat)
    (filter : Option Doc) (cutoff : ℚ) (ms : List VMatch)
    (deleteOk : Bool) : SearchOut :=
  -- line 135: `if not self.vector: raise ValueError(...)`
  if (vec.getD []).isEmpty then
    ⟨.error .invalidQuery, w, []⟩
  else
    let tr := Call.indexQuery ns (vec.getD []) filter k ::
      searchLookupTrace w cutoff ms
    let lost := lostIds w cutoff ms
    let docs := searchDocs w cutoff ms
    -- lines 166-168: `if lost_ids: ... index.delete(lost_ids, namespace=...)`
    if lost.isEmpty then
      ⟨.ok docs, w, tr⟩
    else if deleteOk then
      ⟨.ok docs, vindexDelete w ns lost, tr ++ [Call.indexDelete ns lost]⟩
    else
      ⟨.error .backendFailure, w, tr ++ [Call.indexDelete ns lost]⟩

/-! ## `Embedding.store` (`vectors.py:172-223`)

`upsertOk` models whether the `index.upsert` network call at line 218
succeeds; the source wraps it in no `try`, so a failure propagates. -/

/-- `store` raised as a Python exception. -/
inductive StoreErr where
  | backendFailure
deriving DecidableEq, Repr

/-- Outcome of a `store` call. -/
structure StoreOut where
  result : Except StoreErr String
  world : World
  trace : List Call
deriving Repr

/-- `mongo[table].insert_one(info)`: the stored document (MongoDB adds a
generated `_id` unless `info` already carries one). -/
def insertedDoc (info : Doc) (fid : String) : Doc :=
  if (getField info "_id").isSome then info else info ++ [("_id", fid)]

/-- The owning-document id `store` resolves at lines 190-196: find-or-create
when `info` is given, otherwise the caller-supplied `id`. -/
def resolveOwningId (w : World) (table : String) (id : Option String)
    (info : Option Doc) : Option String :=
  match info with
  | none => id
  | some i =>
    match findOneDoc w table i with
    | some d => getField d "_id"
    | none => getField (insertedDoc i (genId w.counter)) "_id"

/-- The backend state after the find-or-create step (lines 190-196). -/
def dedupWorld (w : World) (table : String) (info : Option Doc) : World :=
  match info with
  | none => w
  | some i =>
    match findOneDoc w table i with
    | some _ => w
    | none =>
      let w2 := insertDocL w table (insertedDoc i (genId w.counter))
      { w2 with counter := w2.counter + 1 }

/-- `Embedding.store(table, pinecone_namespace, id, info, metadata)`
(`vectors.py:172-223`).  `vec` is `self.vector`. -/
def store (w : World) (vec : List ℚ) (table : String) (ns : Option String)
    (id : Option String) (info : Option Doc) (metadata : Option Doc)
    (upsertOk : Bool) : StoreOut :=
  -- line 186: `if pinecone_namespace is None: pinecone_namespace = table`
  let ns := ns.getD table
  -- lines 189-196: find-or-create the owning document
  let findTr : List Call :=
    match info with
    | none => []
    | some i =>
      match findOneDoc w table i with
      | some _ => [Call.docFindOne table i]
      | none => [Call.docFindOne table i,
          Call.docInsertOne table (insertedDoc i (genId w.counter))]
  let oid := resolveOwningId w table id info
  let w1 := dedupWorld w table info
  -- line 198: `if metadata is None: metadata = {}`
  let md := metadata.getD []
  -- lines 201-208: `mongo.embeddings.insert_one({vector, table, obj_id})`
  let rec2 : EmbRecord := ⟨vec, table, oid⟩
  let eid := genId w1.counter
  let w2 : World :=
    { w1 with embeddings := w1.embeddings ++ [(eid, rec2)],
              counter := w1.counter + 1 }
  let tr := findTr ++ [Call.registryInsert eid rec2,
    Call.indexUpsert ns eid vec md]
  -- lines 210-223: `index.upsert(...)`, then `return _id`
  if upsertOk then
    ⟨.ok eid, vindexUpsert w2 ns eid, tr⟩
  else
    ⟨.error .backendFailure, w2, tr⟩

/-! ## `clean_text` (`vectors.py:61-74`)

`re.sub(r'[^\w\s]$', '', text)` deletes a single character that is neither
a word character nor whitespace when it stands at the very end of the
string or — because `$` in Python also matches just before a newline that
ends the string — immediately before a terminating newline.  The character
classes are modelled over their ASCII meaning (`\w` = alphanumeric or
underscore, `\s` = whitespace); `str.lower` is modelled by `Char.toLower`. -/

/-- `\w` (word character). -/
def isWordChar (c : Char) : Bool := c.isAlphanum || c = '_'

/-- `[^\w\s]`: neither a word character nor whitespace. -/
def isPunctChar (c : Char) : Bool := !isWordChar c && !c.isWhitespace

/-- `re.sub(r'[^\w\s]$', '', text)` on the reversed character list: the
only positions where `$` can match are the end of the string and, when the
string ends with `'\n'`, just before that newline. -/
def subEndPunctRev : List Char → List Char
  | [] => []
  | c :: rest =>
    if c = '\n' then
      match rest with
      | c2 :: rest2 => if isPunctChar c2 then c :: rest2 else c :: rest
      | [] => c :: rest
    else if isPunctChar c then rest else c :: rest

/-- `str.strip()`: drop leading and trailing whitespace. -/
def stripChars (l : List Char) : List Char :=
  ((l.dropWhile Char.isWhitespace).reverse.dropWhile Char.isWhitespace).reverse

/-- `clean_text(text)` (`vectors.py:61-74`): the `re.sub` above, then
`.strip().lower()`. -/
def clean_text (s : String) : String :=
  let l1 := (subEndPunctRev s.toList.reverse).reverse
  ⟨(stripChars l1).map Char.toLower⟩

/-! ## Derived characterizations and spec-side definitions -/

/-- How `search` resolves one candidate id: registry lookup, then owning
document lookup.  Depends only on the id, not on the score. -/
def resolveId (w : World) (i : String) : Option Doc :=
  match findRecord w i with
  | none => none
  | some rec2 => findOneDocById w rec2.table rec2.obj_id

/-- The document one match contributes to the result: `none` when the
match is below the cutoff or dangling. -/
def resolveMatch (w : World) (cutoff : ℚ) (r : VMatch) : Option Doc :=
  if cutoff < r.score then resolveId w r.id else none

/-- Backend calls that mutate one of the two stores. -/
def isWriteCall : Call → Bool
  | Call.indexDelete _ _ => true
  | Call.indexUpsert _ _ _ _ => true
  | Call.registryInsert _ _ => true
  | Call.docInsertOne _ _ => true
  | _ => false

/-- The normalizer exactly as claim C8 words it: remove a single trailing
punctuation character if present, then trim surrounding whitespace, then
lower-case. -/
def specNormalize (s : String) : String :=
  let l := s.toList
  let l1 :=
    match l.getLast? with
    | none => l
    | some c => if isPunctChar c then l.dropLast else l
  ⟨(stripChars l1).map Char.toLower⟩

/-- Trailing-punctuation removal as the amended claim words it: remove a
single trailing non-word, non-whitespace character when it stands at the
end of the string or immediately before a terminating newline. -/
def dropTrailingPunctSpec (l : List Char) : List Char :=
  match l.getLast? with
  | none => l
  | some c =>
    if c = '\n' then
      match l.dropLast.getLast? with
      | none => l
      | some c2 =>
        if isPunctChar c2 then l.dropLast.dropLast ++ ['\n'] else l
    else if isPunctChar c then l.dropLast else l

/-- The full normalizer as the amended claim words it. -/
def amendedNormalize (s : String) : String :=
  ⟨(stripChars (dropTrailingPunctSpec s.toList)).map Char.toLower⟩

/-- A Pinecone entry `"x"` with no registry record: the simplest drifted
world, used to instantiate the theorems. -/
def exWorld : World := ⟨[("ns", ["x"])], [], [], 0⟩

/-- A world holding one fully-resolvable entry `"y"` (registry record to
table `"t"`, document `"d1"`), used to instantiate the theorems. -/
def exWorld2 : World :=
  ⟨[("ns", ["x", "y"])], [("y", ⟨[1], "t", some "d1"⟩)],
    [("t", [[("_id", "d1"), ("name", "foo")]])], 0⟩

/-! ## Structural lemmas about the search pipeline -/

theorem stage1_snd_eq (w : World) (c : ℚ) (ms : List VMatch) :
    ∀ p ∈ stage1 w c ms, p.2 = findRecord w p.1 := by
  intro p hp
  simp only [stage1, List.mem_map, List.mem_filter] at hp
  obtain ⟨r, _, rfl⟩ := hp
  rfl

theorem keptPairs_mem (w : World) (c : ℚ) (ms : List VMatch) :
    ∀ p ∈ keptPairs w c ms, findRecord w p.1 = some p.2 := by
  intro p hp
  simp only [keptPairs, List.mem_filterMap] at hp
  obtain ⟨x, hx, hmap⟩ := hp
  have hx2 : x.2 = findRecord w x.1 := stage1_snd_eq w c ms x hx
  cases h2 : x.2 with
  | none => rw [h2] at hmap; simp at hmap
  | some rec2 =>
    rw [h2] at hmap
    simp only [Option.map] at hmap
    cases hmap
    show findRecord w x.1 = some rec2
    rw [← hx2]
    exact h2

theorem stage2_snd_eq (w : World) (c : ℚ) (ms : List VMatch) :
    ∀ p ∈ stage2 w c ms, p.2 = resolveId w p.1 := by
  intro p hp
  simp only [stage2, List.mem_map] at hp
  obtain ⟨q, hq, rfl⟩ := hp
  have := keptPairs_mem w c ms q hq
  simp [resolveId, this]

/-- One search step: the head candidate contributes its own resolution. -/
theorem searchDocs_cons (w : World) (c : ℚ) (m : VMatch) (ms : List VMatch) :
    searchDocs w c (m :: ms) =
      (resolveMatch w c m).toList ++ searchDocs w c ms := by
  by_cases h : c < m.score
  · cases hr : findRecord w m.id with
    | none =>
      simp [searchDocs, stage2, keptPairs, stage1, resolveMatch, resolveId,
        List.filter_cons, h, hr]
    | some rec2 =>
      cases hd : findOneDocById w rec2.table rec2.obj_id <;>
        simp [searchDocs, stage2, keptPairs, stage1, resolveMatch, resolveId,
          List.filter_cons, h, hr, hd]
  · simp [searchDocs, stage2, keptPairs, stage1, resolveMatch,
      List.filter_cons, h]

/-- Line 163's list, one match at a time: `search` returns exactly the
per-candidate resolutions, in the index's rank order. -/
theorem searchDocs_eq_filterMap (w : World) (c : ℚ) (ms : List VMatch) :
    searchDocs w c ms = ms.filterMap (resolveMatch w c) := by
  induction ms with
  | nil => rfl
  | cons m ms ih =>
    rw [searchDocs_cons, List.filterMap_cons, ih]
    cases resolveMatch w c m <;> simp

theorem id_mem_lostIds (w : World) (c : ℚ) (ms : List VMatch) (m : VMatch)
    (hm : m ∈ ms) (hs : c < m.score) (hr : resolveId w m.id = none) :
    m.id ∈ lostIds w c ms := by
  have h1 : (m.id, findRecord w m.id) ∈ stage1 w c ms := by
    refine List.mem_map_of_mem _ ?_
    exact List.mem_filter.mpr ⟨hm, by simpa using hs⟩
  rw [lostIds, List.mem_append]
  cases hrec : findRecord w m.id with
  | none =>
    left
    rw [hrec] at h1
    refine List.mem_map.mpr ⟨(m.id, none), List.mem_filter.mpr ⟨h1, rfl⟩, rfl⟩
  | some rec2 =>
    right
    have hk : (m.id, rec2) ∈ keptPairs w c ms := by
      rw [hrec] at h1
      exact List.mem_filterMap.mpr ⟨(m.id, some rec2), h1, rfl⟩
    have h2 : (m.id, findOneDocById w rec2.table rec2.obj_id) ∈ stage2 w c ms :=
      List.mem_map_of_mem _ hk
    have hnone : findOneDocById w rec2.table rec2.obj_id = none := by
      rw [resolveId, hrec] at hr; exact hr
    rw [hnone] at h2
    exact List.mem_map.mpr ⟨(m.id, none), List.mem_filter.mpr ⟨h2, rfl⟩, rfl⟩

theorem id_not_mem_resolvedIds (w : World) (c : ℚ) (ms : List VMatch)
    (i : String) (hr : resolveId w i = none) :
    i ∉ resolvedIds w c ms := by
  intro hmem
  simp only [resolvedIds, List.mem_map, List.mem_filter] at hmem
  obtain ⟨p, ⟨hp, hsome⟩, rfl⟩ := hmem
  rw [stage2_snd_eq w c ms p hp, hr] at hsome
  simp at hsome

/-- Every lost id belongs to a candidate that passed the cutoff. -/
theorem lostIds_from_kept (w : World) (c : ℚ) (ms : List VMatch) (i : String)
    (hi : i ∈ lostIds w c ms) :
    ∃ m ∈ ms, m.id = i ∧ c < m.score := by
  have key : ∀ j, j ∈ (stage1 w c ms).map (·.1) →
      ∃ m ∈ ms, m.id = j ∧ c < m.score := by
    intro j hj
    simp only [stage1, List.map_map, List.mem_map, List.mem_filter,
      Function.comp] at hj
    obtain ⟨r, ⟨hr, hsc⟩, rfl⟩ := hj
    exact ⟨r, hr, rfl, by simpa using hsc⟩
  rw [lostIds, List.mem_append] at hi
  cases hi with
  | inl h =>
    apply key
    simp only [List.mem_map, List.mem_filter] at h ⊢
    obtain ⟨p, ⟨hp, _⟩, rfl⟩ := h
    exact ⟨p, hp, rfl⟩
  | inr h =>
    simp only [List.mem_map, List.mem_filter] at h
    obtain ⟨p, ⟨hp, _⟩, rfl⟩ := h
    simp only [stage2, List.mem_map] at hp
    obtain ⟨q, hq, rfl⟩ := hp
    simp only [keptPairs, List.mem_filterMap] at hq
    obtain ⟨x, hx, hmap⟩ := hq
    apply key
    have hfst : x.1 = q.1 := by
      cases h2 : x.2 with
      | none => rw [h2] at hmap; simp at hmap
      | some rec2 =>
        rw [h2] at hmap
        simp only [Option.map] at hmap
        injection hmap with hq
        rw [← hq]
    rw [← hfst]
    exact List.mem_map_of_mem _ hx

/-! ## Lemmas about the vector index and the search branches -/

theorem nsIdsL_cons_eq (v : List String) (rest : List (String × List String))
    (ns : String) : nsIdsL ((ns, v) :: rest) ns = v := by
  simp [nsIdsL, List.find?]

theorem nsIdsL_cons_ne (k : String) (v : List String)
    (rest : List (String × List String)) (ns : String) (h : k ≠ ns) :
    nsIdsL ((k, v) :: rest) ns = nsIdsL rest ns := by
  simp [nsIdsL, List.find?, h]

theorem nsIdsL_vindexDeleteL (vx : List (String × List String)) (ns : String)
    (ids : List String) :
    nsIdsL (vindexDeleteL vx ns ids) ns =
      (nsIdsL vx ns).filter (fun i => !(ids.contains i)) := by
  induction vx with
  | nil => rfl
  | cons p rest ih =>
    obtain ⟨k, v⟩ := p
    by_cases h : k = ns
    · subst h
      have hd : vindexDeleteL ((k, v) :: rest) k ids =
          (k, v.filter (fun i => !(ids.contains i))) :: vindexDeleteL rest k ids := by
        simp [vindexDeleteL]
      rw [hd, nsIdsL_cons_eq, nsIdsL_cons_eq]
    · have hd : vindexDeleteL ((k, v) :: rest) ns ids =
          (k, v) :: vindexDeleteL rest ns ids := by
        simp [vindexDeleteL, h]
      rw [hd, nsIdsL_cons_ne _ _ _ _ h, nsIdsL_cons_ne _ _ _ _ h]
      exact ih

theorem nsIds_vindexDelete_kept (w : World) (ns : String) (ids : List String)
    (i : String) (h : i ∉ ids) (hm : i ∈ nsIds w ns) :
    i ∈ nsIds (vindexDelete w ns ids) ns := by
  show i ∈ nsIdsL (vindexDeleteL w.vindex ns ids) ns
  rw [nsIdsL_vindexDeleteL]
  refine List.mem_filter.mpr ⟨hm, ?_⟩
  simpa using h

theorem nsIds_vindexDelete_removed (w : World) (ns : String)
    (ids : List String) (i : String) (h : i ∈ ids) :
    i ∉ nsIds (vindexDelete w ns ids) ns := by
  show i ∉ nsIdsL (vindexDeleteL w.vindex ns ids) ns
  rw [nsIdsL_vindexDeleteL]
  intro hmem
  have := (List.mem_filter.mp hmem).2
  simp [h] at this

theorem search_result_ok (w : World) (vec : Option (List ℚ)) (ns : String)
    (k : Nat) (f : Option Doc) (c : ℚ) (ms : List VMatch) (dok : Bool)
    (l : List Doc) (h : (search w vec ns k f c ms dok).result = .ok l) :
    l = searchDocs w c ms := by
  unfold search at h
  by_cases hv : (vec.getD []).isEmpty = true
  · simp [hv] at h
  · by_cases hl : (lostIds w c ms).isEmpty = true
    · simp [hv, hl] at h
      exact h.symm
    · cases dok <;> simp [hv, hl] at h
      exact h.symm

theorem search_world_cases (w : World) (vec : Option (List ℚ)) (ns : String)
    (k : Nat) (f : Option Doc) (c : ℚ) (ms : List VMatch) (dok : Bool) :
    (search w vec ns k f c ms dok).world = w ∨
      (search w vec ns k f c ms dok).world =
        vindexDelete w ns (lostIds w c ms) := by
  unfold search
  by_cases hv : (vec.getD []).isEmpty = true
  · left; simp [hv]
  · by_cases hl : (lostIds w c ms).isEmpty = true
    · left; simp [hv, hl]
    · cases dok
      · left; simp [hv, hl]
      · right; simp [hv, hl]

theorem search_world_deleted (w : World) (vec : Option (List ℚ)) (ns : String)
    (k : Nat) (f : Option Doc) (c : ℚ) (ms : List VMatch)
    (hv : ¬(vec.getD []).isEmpty = true)
    (hl : ¬(lostIds w c ms).isEmpty = true) :
    (search w vec ns k f c ms true).world =
      vindexDelete w ns (lostIds w c ms) := by
  unfold search
  simp [hv, hl]

theorem search_trace_with_delete (w : World) (vec : Option (List ℚ))
    (ns : String) (k : Nat) (f : Option Doc) (c : ℚ) (ms : List VMatch)
    (dok : Bool) (hv : ¬(vec.getD []).isEmpty = true)
    (hl : ¬(lostIds w c ms).isEmpty = true) :
    (search w vec ns k f c ms dok).trace =
      (Call.indexQuery ns (vec.getD []) f k :: searchLookupTrace w c ms) ++
        [Call.indexDelete ns (lostIds w c ms)] := by
  unfold search
  cases dok <;> simp [hv, hl]

theorem searchLookupTrace_not_write (w : World) (c : ℚ) (ms : List VMatch) :
    ∀ call ∈ searchLookupTrace w c ms, isWriteCall call = false := by
  intro call h
  rw [searchLookupTrace, List.mem_append] at h
  cases h with
  | inl h =>
    obtain ⟨x, _, rfl⟩ := List.mem_map.mp h
    rfl
  | inr h =>
    obtain ⟨x, _, rfl⟩ := List.mem_map.mp h
    rfl

theorem length_filterMap_mono {α β : Type} (f g : α → Option β) (l : List α)
    (h : ∀ a, (g a).isSome = true → g a = f a) :
    (l.filterMap g).length ≤ (l.filterMap f).length := by
  induction l with
  | nil => exact le_refl _
  | cons a l ih =>
    rw [List.filterMap_cons, List.filterMap_cons]
    cases hg : g a with
    | none =>
      cases hf : f a with
      | none => exact ih
      | some b =>
        simp only [List.length_cons]
        exact le_trans ih (Nat.le_succ _)
    | some b =>
      have hfa := h a (by rw [hg]; rfl)
      rw [hg] at hfa
      rw [← hfa]
      simp only [List.length_cons]
      exact Nat.succ_le_succ ih

/-! ## Claim theorems about `search` -/

/-- C3: a `search` whose query vector is `None` or the empty list raises
`InvalidQuery` (`ValueError`, line 136), leaves both stores untouched and
issues no backend call at all (empty trace). -/
theorem search_empty_vector_no_backend_calls (w : World) (ns : String)
    (k : Nat) (f : Option Doc) (c : ℚ) (ms : List VMatch) (dok : Bool)
    (vec : Option (List ℚ)) (hv : vec = none ∨ vec = some []) :
    search w vec ns k f c ms dok = ⟨.error .invalidQuery, w, []⟩ := by
  rcases hv with h | h <;> subst h <;> rfl

theorem search_empty_vector_no_backend_calls_witness :
    search exWorld none "ns" 10 none 0 [⟨"x", 1⟩] true =
      ⟨.error .invalidQuery, exWorld, []⟩ :=
  search_empty_vector_no_backend_calls exWorld "ns" 10 none 0 [⟨"x", 1⟩]
    true none (Or.inl rfl)

/-- C5: for a fixed query (hence a fixed ranked match list), namespace, `k`
and filter, raising the cutoff never increases the number of returned
documents: each match either resolves identically under both cutoffs or is
dropped by the higher one. -/
theorem search_cutoff_monotone (w : World) (vec : Option (List ℚ))
    (ns : String) (k : Nat) (f : Option Doc) (ms : List VMatch) (c1 c2 : ℚ)
    (d1 d2 : Bool) (l1 l2 : List Doc) (hc : c1 ≤ c2)
    (h1 : (search w vec ns k f c1 ms d1).result = .ok l1)
    (h2 : (search w vec ns k f c2 ms d2).result = .ok l2) :
    l2.length ≤ l1.length := by
  rw [search_result_ok _ _ _ _ _ _ _ _ _ h1, searchDocs_eq_filterMap]
  rw [search_result_ok _ _ _ _ _ _ _ _ _ h2, searchDocs_eq_filterMap]
  apply length_filterMap_mono
  intro r hr
  by_cases hs : c2 < r.score
  · rw [resolveMatch, if_pos hs, resolveMatch, if_pos (lt_of_le_of_lt hc hs)]
  · rw [resolveMatch, if_neg hs] at hr
    simp at hr

/-- C7: a successful `search` returns the per-candidate resolutions in
exactly the rank order of the VectorIndex response (a `filterMap` over the
match list, no re-sort), and since the index returns at most `k` matches
the result has at most `k` documents. -/
theorem search_rank_order_and_length (w : World) (vec : Option (List ℚ))
    (ns : String) (k : Nat) (f : Option Doc) (c : ℚ) (ms : List VMatch)
    (dok : Bool) (l : List Doc) (hk : ms.length ≤ k)
    (h : (search w vec ns k f c ms dok).result = .ok l) :
    l = ms.filterMap (resolveMatch w c) ∧ l.length ≤ k := by
  have hd := search_result_ok _ _ _ _ _ _ _ _ _ h
  rw [searchDocs_eq_filterMap] at hd
  refine ⟨hd, ?_⟩
  rw [hd]
  exact le_trans (List.length_filterMap_le _ _) hk

theorem search_cutoff_monotone_witness :
    ([[("_id", "d1"), ("name", "foo")]] : List Doc).length ≤
      ([[("_id", "d1"), ("name", "foo")]] : List Doc).length :=
  search_cutoff_monotone exWorld2 (some [1]) "ns" 10 none [⟨"y", 2⟩] 0 1
    true true [[("_id", "d1"), ("name", "foo")]]
    [[("_id", "d1"), ("name", "foo")]] (by decide) (by rfl) (by rfl)

theorem search_rank_order_and_length_witness :
    ([[("_id", "d1"), ("name", "foo")]] : List Doc) =
      [VMatch.mk "y" 2].filterMap (resolveMatch exWorld2 0) ∧
    ([[("_id", "d1"), ("name", "foo")]] : List Doc).length ≤ 10 :=
  search_rank_order_and_length exWorld2 (some [1]) "ns" 10 none 0 [⟨"y", 2⟩]
    true [[("_id", "d1"), ("name", "foo")]] (by decide) (by rfl)

/-- C2 as stated is false: the `index.delete` at line 168 is wrapped in no
`try`, so at this input (one dangling candidate, failing delete) `search`
raises instead of returning the resolved (empty) document list. -/
theorem search_delete_failure_counterexample :
    (search exWorld (some [1]) "ns" 10 none 0 [⟨"x", 1⟩] false).result =
        .error .backendFailure ∧
      (search exWorld (some [1]) "ns" 10 none 0 [⟨"x", 1⟩] false).result ≠
        .ok (searchDocs exWorld 0 [⟨"x", 1⟩]) := by
  constructor
  · rfl
  · intro h
    rw [show (search exWorld (some [1]) "ns" 10 none 0 [⟨"x", 1⟩]
        false).result = .error .backendFailure from rfl] at h
    exact Except.noConfusion h

/-- C2 amended: a failure of the VectorIndex delete issued for the lost ids
propagates out of `search` as a backend failure (no documents are
returned, the index is left untouched); only when the delete succeeds does
the call return the resolved document list. -/
theorem search_delete_failure_propagates (w : World) (vec : Option (List ℚ))
    (ns : String) (k : Nat) (f : Option Doc) (c : ℚ) (ms : List VMatch)
    (hv : ¬(vec.getD []).isEmpty = true) (hl : lostIds w c ms ≠ []) :
    (search w vec ns k f c ms false).result = .error .backendFailure ∧
    (search w vec ns k f c ms false).world = w ∧
    (search w vec ns k f c ms true).result = .ok (searchDocs w c ms) := by
  have hl2 : ¬(lostIds w c ms).isEmpty = true := by
    simpa [List.isEmpty_iff] using hl
  unfold search
  simp [hv, hl2]

theorem search_delete_failure_propagates_witness :
    (search exWorld (some [1]) "ns" 10 none 0 [⟨"x", 2⟩] false).result =
        .error .backendFailure ∧
      (search exWorld (some [1]) "ns" 10 none 0 [⟨"x", 2⟩] false).world =
        exWorld ∧
      (search exWorld (some [1]) "ns" 10 none 0 [⟨"x", 2⟩] true).result =
        .ok (searchDocs exWorld 0 [⟨"x", 2⟩]) :=
  search_delete_failure_propagates exWorld (some [1]) "ns" 10 none 0
    [⟨"x", 2⟩] (by decide) (by decide)

/-- C1: a candidate above the cutoff whose registry record is missing, or
whose record points at a missing owning document, contributes no document
to the result (its resolution is `none` and its id is not among the
resolving ids), lands in the lost-id list, is part of the delete batch
issued against the searched namespace, and — when the delete call
succeeds — is gone from that namespace after the call. -/
theorem search_lost_candidate_excluded_and_deleted (w : World)
    (vec : Option (List ℚ)) (ns : String) (k : Nat) (f : Option Doc) (c : ℚ)
    (ms : List VMatch) (dok : Bool) (m : VMatch)
    (hv : ¬(vec.getD []).isEmpty = true) (hm : m ∈ ms) (hs : c < m.score)
    (hdrift : findRecord w m.id = none ∨
      ∃ rec2, findRecord w m.id = some rec2 ∧
        findOneDocById w rec2.table rec2.obj_id = none) :
    resolveMatch w c m = none ∧
    m.id ∉ resolvedIds w c ms ∧
    m.id ∈ lostIds w c ms ∧
    Call.indexDelete ns (lostIds w c ms) ∈
      (search w vec ns k f c ms dok).trace ∧
    (dok = true → m.id ∉ nsIds (search w vec ns k f c ms dok).world ns) := by
  have hres : resolveId w m.id = none := by
    rcases hdrift with h | ⟨rec2, h1, h2⟩
    · rw [resolveId, h]
    · rw [resolveId, h1]
      exact h2
  have hlost : m.id ∈ lostIds w c ms := id_mem_lostIds w c ms m hm hs hres
  have hlne : ¬(lostIds w c ms).isEmpty = true := by
    intro hc
    rw [List.isEmpty_iff] at hc
    rw [hc] at hlost
    exact (List.not_mem_nil _) hlost
  refine ⟨?_, ?_, hlost, ?_, ?_⟩
  · rw [resolveMatch, if_pos hs, hres]
  · exact id_not_mem_resolvedIds w c ms m.id hres
  · rw [search_trace_with_delete w vec ns k f c ms dok hv hlne]
    simp
  · intro hdok
    subst hdok
    rw [search_world_deleted w vec ns k f c ms hv hlne]
    exact nsIds_vindexDelete_removed w ns _ m.id hlost

theorem search_lost_candidate_excluded_and_deleted_witness :
    resolveMatch exWorld 0 ⟨"x", 1⟩ = none ∧
    "x" ∉ resolvedIds exWorld 0 [⟨"x", 1⟩] ∧
    "x" ∈ lostIds exWorld 0 [⟨"x", 1⟩] ∧
    Call.indexDelete "ns" (lostIds exWorld 0 [⟨"x", 1⟩]) ∈
      (search exWorld (some [1]) "ns" 10 none 0 [⟨"x", 1⟩] true).trace ∧
    (true = true → "x" ∉
      nsIds (search exWorld (some [1]) "ns" 10 none 0 [⟨"x", 1⟩] true).world
        "ns") :=
  search_lost_candidate_excluded_and_deleted exWorld (some [1]) "ns" 10 none
    0 [⟨"x", 1⟩] true ⟨"x", 1⟩ (by decide) (by decide) (by decide)
    (Or.inl rfl)

/-- C4: a candidate at or below the cutoff is discarded before drift
detection: its id is never recorded as lost, and it survives in the
searched namespace whatever the outcome of the call (candidate ids are
distinct, as the index returns each stored id at most once). -/
theorem search_subcutoff_never_repaired (w : World) (vec : Option (List ℚ))
    (ns : String) (k : Nat) (f : Option Doc) (c : ℚ) (ms : List VMatch)
    (dok : Bool) (m : VMatch) (hnd : (ms.map (·.id)).Nodup) (hm : m ∈ ms)
    (hs : m.score ≤ c) :
    m.id ∉ lostIds w c ms ∧
    (m.id ∈ nsIds w ns →
      m.id ∈ nsIds (search w vec ns k f c ms dok).world ns) := by
  have hnl : m.id ∉ lostIds w c ms := by
    intro hmem
    obtain ⟨m2, hm2, hid, hsc⟩ := lostIds_from_kept w c ms m.id hmem
    have heq : m2 = m := List.inj_on_of_nodup_map hnd hm2 hm hid
    rw [heq] at hsc
    exact absurd hsc (not_lt.mpr hs)
  refine ⟨hnl, ?_⟩
  intro hmem
  rcases search_world_cases w vec ns k f c ms dok with h | h
  · rw [h]
    exact hmem
  · rw [h]
    exact nsIds_vindexDelete_kept w ns _ m.id hnl hmem

theorem search_subcutoff_never_repaired_witness :
    "x" ∉ lostIds exWorld 2 [⟨"x", 1⟩] ∧
      ("x" ∈ nsIds exWorld "ns" →
        "x" ∈ nsIds (search exWorld (some [1]) "ns" 10 none 2 [⟨"x", 1⟩]
          true).world "ns") :=
  search_subcutoff_never_repaired exWorld (some [1]) "ns" 10 none 2
    [⟨"x", 1⟩] true ⟨"x", 1⟩ (by decide) (by decide) (by decide)

/-- C10: whatever its outcome, `search` never writes to the DocumentStore:
the registry and every collection are unchanged, and the only mutating
backend call its trace can contain is the delete of the lost ids in the
searched namespace. -/
theorem search_frame_docstore_unchanged (w : World) (vec : Option (List ℚ))
    (ns : String) (k : Nat) (f : Option Doc) (c : ℚ) (ms : List VMatch)
    (dok : Bool) :
    (search w vec ns k f c ms dok).world.embeddings = w.embeddings ∧
    (search w vec ns k f c ms dok).world.tables = w.tables ∧
    ∀ call ∈ (search w vec ns k f c ms dok).trace,
      isWriteCall call = true →
        call = Call.indexDelete ns (lostIds w c ms) := by
  refine ⟨?_, ?_, ?_⟩
  · rcases search_world_cases w vec ns k f c ms dok with h | h <;>
      simp [h, vindexDelete]
  · rcases search_world_cases w vec ns k f c ms dok with h | h <;>
      simp [h, vindexDelete]
  · intro call hc hwrt
    by_cases hv : (vec.getD []).isEmpty = true
    · unfold search at hc
      simp [hv] at hc
    · by_cases hl : (lostIds w c ms).isEmpty = true
      · unfold search at hc
        simp [hv, hl] at hc
        rcases hc with rfl | hc
        · simp [isWriteCall] at hwrt
        · rw [searchLookupTrace_not_write w c ms call hc] at hwrt
          exact absurd hwrt (by simp)
      · rw [search_trace_with_delete w vec ns k f c ms dok hv hl] at hc
        simp only [List.mem_append, List.mem_cons, List.mem_singleton] at hc
        rcases hc with (rfl | hc) | rfl | h0
        · simp [isWriteCall] at hwrt
        · rw [searchLookupTrace_not_write w c ms call hc] at hwrt
          exact absurd hwrt (by simp)
        · rfl
        · exact absurd h0 (List.not_mem_nil _)

/-! ## Lemmas about `store` -/

theorem find?_updateAssoc_self {α : Type} (l : List (String × α))
    (k : String) (v : α) :
    (updateAssoc l k v).find? (fun p => decide (p.1 = k)) = some (k, v) := by
  induction l with
  | nil => simp [updateAssoc, List.find?]
  | cons p rest ih =>
    obtain ⟨k2, v2⟩ := p
    by_cases h : k2 = k
    · simp [updateAssoc, h, List.find?]
    · simp only [updateAssoc, h, if_false, List.find?, decide_eq_true_eq]
      simpa [h] using ih

theorem tableDocs_insertDocL_self (w : World) (t : String) (d : Doc) :
    tableDocs (insertDocL w t d) t = tableDocs w t ++ [d] := by
  show ((((insertDocL w t d).tables.find?
      (fun p => decide (p.1 = t))).map (·.2)).getD []) = _
  rw [show (insertDocL w t d).tables =
      updateAssoc w.tables t (tableDocs w t ++ [d]) from rfl]
  rw [find?_updateAssoc_self]
  rfl

theorem findOneDoc_congr (w w' : World) (t : String) (q : Doc)
    (h : w.tables = w'.tables) : findOneDoc w t q = findOneDoc w' t q := by
  unfold findOneDoc tableDocs
  rw [h]

theorem docMatches_of_subset (i d : Doc) (h : ∀ kv ∈ i, kv ∈ d) :
    docMatches i d = true := by
  rw [docMatches, List.all_eq_true]
  intro kv hkv
  rw [List.any_eq_true]
  exact ⟨kv, h kv hkv, by simp⟩

theorem docMatches_insertedDoc (i : Doc) (fid : String) :
    docMatches i (insertedDoc i fid) = true := by
  apply docMatches_of_subset
  intro kv hkv
  unfold insertedDoc
  by_cases h : (getField i "_id").isSome
  · rw [if_pos h]
    exact hkv
  · rw [if_neg h]
    exact List.mem_append_left _ hkv

theorem dedupWorld_vindex (w : World) (table : String) (info : Option Doc) :
    (dedupWorld w table info).vindex = w.vindex := by
  cases info with
  | none => rfl
  | some i =>
    cases h : findOneDoc w table i <;> simp [dedupWorld, h, insertDocL]

theorem dedupWorld_embeddings (w : World) (table : String)
    (info : Option Doc) : (dedupWorld w table info).embeddings =
      w.embeddings := by
  cases info with
  | none => rfl
  | some i =>
    cases h : findOneDoc w table i <;> simp [dedupWorld, h, insertDocL]

theorem store_world_tables (w : World) (vec : List ℚ) (table : String)
    (ns : Option String) (id : Option String) (info md : Option Doc)
    (u : Bool) : (store w vec table ns id info md u).world.tables =
      (dedupWorld w table info).tables := by
  cases u <;> rfl

theorem store_world_embeddings (w : World) (vec : List ℚ) (table : String)
    (ns : Option String) (id : Option String) (info md : Option Doc)
    (u : Bool) : (store w vec table ns id info md u).world.embeddings =
      w.embeddings ++ [(genId (dedupWorld w table info).counter,
        ⟨vec, table, resolveOwningId w table id info⟩)] := by
  have h : (store w vec table ns id info md u).world.embeddings =
      (dedupWorld w table info).embeddings ++
        [(genId (dedupWorld w table info).counter,
          ⟨vec, table, resolveOwningId w table id info⟩)] := by
    cases u <;> rfl
  rw [h, dedupWorld_embeddings]

theorem findOneDoc_store_found (w : World) (vec : List ℚ) (table : String)
    (ns : Option String) (id : Option String) (i : Doc) (md : Option Doc)
    (u : Bool) (d : Doc) (h : findOneDoc w table i = some d) :
    findOneDoc (store w vec table ns id (some i) md u).world table i =
      some d := by
  rw [findOneDoc_congr _ (dedupWorld w table (some i)) table i
    (store_world_tables w vec table ns id (some i) md u)]
  have hd : dedupWorld w table (some i) = w := by
    simp [dedupWorld, h]
  rw [hd]
  exact h

theorem findOneDoc_store_inserted (w : World) (vec : List ℚ)
    (table : String) (ns : Option String) (id : Option String) (i : Doc)
    (md : Option Doc) (u : Bool) (h : findOneDoc w table i = none) :
    findOneDoc (store w vec table ns id (some i) md u).world table i =
      some (insertedDoc i (genId w.counter)) := by
  rw [findOneDoc_congr _ (dedupWorld w table (some i)) table i
    (store_world_tables w vec table ns id (some i) md u)]
  have hd : (dedupWorld w table (some i)).tables =
      (insertDocL w table (insertedDoc i (genId w.counter))).tables := by
    simp [dedupWorld, h]
  rw [findOneDoc_congr _ (insertDocL w table
    (insertedDoc i (genId w.counter))) table i hd]
  unfold findOneDoc
  rw [tableDocs_insertDocL_self, List.find?_append]
  rw [show (tableDocs w table).find? (docMatches i) = none from h]
  simp [List.find?, docMatches_insertedDoc]

/-! ## Claim theorems about `store` -/

/-- C6: two consecutive `store` calls with the same `info` and no caller
`id` resolve the same owning-document id (lines 190-196 find-or-create):
the second call finds the document the first one found or inserted, and
inserts no duplicate (the collections are unchanged by the second call). -/
theorem store_dedup_idempotent (w : World) (vec1 vec2 : List ℚ)
    (table : String) (ns1 ns2 : Option String) (i : Doc) (md1 md2 : Option Doc)
    (u1 u2 : Bool) :
    resolveOwningId (store w vec1 table ns1 none (some i) md1 u1).world
        table none (some i) = resolveOwningId w table none (some i) ∧
    (store (store w vec1 table ns1 none (some i) md1 u1).world vec2 table
        ns2 none (some i) md2 u2).world.tables =
      (store w vec1 table ns1 none (some i) md1 u1).world.tables := by
  cases h : findOneDoc w table i with
  | some d =>
    have hf := findOneDoc_store_found w vec1 table ns1 none i md1 u1 d h
    constructor
    · simp [resolveOwningId, hf, h]
    · rw [store_world_tables]
      simp [dedupWorld, hf]
  | none =>
    have hf := findOneDoc_store_inserted w vec1 table ns1 none i md1 u1 h
    constructor
    · simp [resolveOwningId, hf, h]
    · rw [store_world_tables]
      simp [dedupWorld, hf]

/-- C9: every `store` issues the registry `insert_one` (line 207) strictly
before the index `upsert` (line 218); when the upsert fails, the call
raises, the new EmbeddingRecord is left in the registry, the VectorIndex
is untouched, and the find-or-create outcome on the owning collection is
not rolled back. -/
theorem store_registry_write_precedes_upsert (w : World) (vec : List ℚ)
    (table : String) (ns : Option String) (id : Option String)
    (info md : Option Doc) (u : Bool) :
    (∃ pre, (store w vec table ns id info md u).trace = pre ++
        [Call.registryInsert (genId (dedupWorld w table info).counter)
            ⟨vec, table, resolveOwningId w table id info⟩,
          Call.indexUpsert (ns.getD table)
            (genId (dedupWorld w table info).counter) vec (md.getD [])]) ∧
    (store w vec table ns id info md false).result =
      .error .backendFailure ∧
    (store w vec table ns id info md false).world.embeddings =
      w.embeddings ++ [(genId (dedupWorld w table info).counter,
        ⟨vec, table, resolveOwningId w table id info⟩)] ∧
    (store w vec table ns id info md false).world.vindex = w.vindex ∧
    (store w vec table ns id info md false).world.tables =
      (dedupWorld w table info).tables := by
  refine ⟨⟨?_, ?_⟩, ?_, ?_, ?_, ?_⟩
  · exact match info with
      | none => []
      | some i =>
        match findOneDoc w table i with
        | some _ => [Call.docFindOne table i]
        | none => [Call.docFindOne table i,
            Call.docInsertOne table (insertedDoc i (genId w.counter))]
  · cases u <;> rfl
  · rfl
  · exact store_world_embeddings w vec table ns id info md false
  · have h : (store w vec table ns id info md false).world.vindex =
        (dedupWorld w table info).vindex := rfl
    rw [h, dedupWorld_vindex]
  · exact store_world_tables w vec table ns id info md false

/-! ## Claim theorems about `clean_text` -/

/-- Bridging the regex scan (on the reversed character list) with the
end-of-string description: both remove the same single character. -/
theorem subEndPunctRev_reverse (l : List Char) :
    (subEndPunctRev l.reverse).reverse = dropTrailingPunctSpec l := by
  induction l using List.reverseRecOn with
  | nil => rfl
  | append_singleton xs x _ =>
    by_cases hx : x = '\n'
    · subst hx
      induction xs using List.reverseRecOn with
      | nil => rfl
      | append_singleton ys y _ =>
        by_cases hy : isPunctChar y = true <;>
          simp [subEndPunctRev, dropTrailingPunctSpec, List.reverse_append,
            List.getLast?_concat, List.dropLast_concat, hy]
    · by_cases hp : isPunctChar x = true <;>
        simp [subEndPunctRev, dropTrailingPunctSpec, List.reverse_append,
          List.getLast?_concat, List.dropLast_concat, hx, hp]

/-- C8 as stated is false at `"hi.\n"`: Python's `$` also matches just
before a terminating newline, so `clean_text` drops the `'.'` and returns
`"hi"`, while the claimed composition (strip one trailing punctuation
character, trim, lower-case) keeps it and returns `"hi."`. -/
theorem clean_text_spec_counterexample :
    clean_text "hi.\n" = "hi" ∧ specNormalize "hi.\n" = "hi." ∧
      clean_text "hi.\n" ≠ specNormalize "hi.\n" := by
  refine ⟨by decide, by decide, by decide⟩

/-- C8 amended: for every input string, `clean_text` removes a single
trailing character that is neither a word character nor whitespace when it
stands at the end of the string or immediately before a terminating
newline, then trims surrounding whitespace, then lower-cases — a pure
function of its input. -/
theorem clean_text_eq_amended (s : String) :
    clean_text s = amendedNormalize s := by
  show (⟨(stripChars ((subEndPunctRev s.toList.reverse).reverse)).map
    Char.toLower⟩ : String) = amendedNormalize s
  rw [subEndPunctRev_reverse]
  rfl

end Chatlib
